import Mathlib

/-
Verification of the secret transformer of secret-wrapper-k8s
(internal/secret/transformer.go).

Modelling conventions.
A Go string is a raw byte sequence, represented as a list of bytes.
A parsed YAML document is a yaml.Node tree; the fields the transformer
reads or writes (Kind, Style, Value, Content) are represented, the fields
it never touches (Tag, anchors, comments, positions) are omitted.  The
yaml parse and serialize boundary is external library code; pipelines are
therefore analysed on the parsed tree, with the parser outcome of an input
byte buffer given as an oracle (Input below), and the serializer treated
as a deterministic function of the tree as required by the design notes,
so two runs that produce equal trees produce equal output bytes.
-/

namespace SecretWrapper

/-- Go byte strings: raw byte sequences. -/
abbrev Bytes := List (Fin 256)

/-- The node kinds of a yaml.Node (DocumentNode, SequenceNode, MappingNode,
ScalarNode, AliasNode). -/
inductive YKind where
  | document
  | sequence
  | mapping
  | scalar
  | alias
deriving DecidableEq

/-- A yaml.Node: Kind, Style (a bitmask; 0 is the default style and
yaml.LiteralStyle is 8), Value (the bytes of scalar text), and Content
(children; a mapping's content alternates key node, value node). -/
inductive YNode where
  | node : YKind → Nat → Bytes → List YNode → YNode

def YNode.kind : YNode → YKind
  | .node k _ _ _ => k

def YNode.style : YNode → Nat
  | .node _ s _ _ => s

def YNode.value : YNode → Bytes
  | .node _ _ v _ => v

def YNode.content : YNode → List YNode
  | .node _ _ _ c => c

/-- yaml.LiteralStyle. -/
def literalStyle : Nat := 8

/-- The bytes of the key text data. -/
def keyData : Bytes := [100, 97, 116, 97]

/-- The bytes of the key text kind. -/
def keyKind : Bytes := [107, 105, 110, 100]

/-- The bytes of the discriminator text Secret. -/
def valSecret : Bytes := [83, 101, 99, 114, 101, 116]

/-- The error taxonomy of the transformer; each fmt.Errorf message becomes a
constructor, and the wrapping of a per-key transform failure becomes
transformKey carrying the key bytes and the inner error. -/
inductive TErr where
  | emptyInput
  | parseError
  | invalidDocument
  | expectedMapping
  | notASecret
  | invalidBase64
  | transformKey : Bytes → TErr → TErr
deriving DecidableEq

/-! ### The base64 codec (Go encoding/base64, StdEncoding)

StdEncoding is the padded standard alphabet.  Its decoder ignores carriage
returns and line feeds, insists on complete 4-character quanta with padding
at the end only, and is non-strict: the unused trailing bits of a padded
final quantum are not required to be zero. -/

/-- Byte of the standard alphabet at a given index (A-Z, a-z, 0-9, plus,
slash); indices outside 0..63 never arise from the encoder. -/
def b64chrNat (i : Nat) : Nat :=
  if i < 26 then 65 + i
  else if i < 52 then 71 + i
  else if i < 62 then i - 4
  else if i = 62 then 43
  else 47

def b64chr (i : Nat) : Fin 256 :=
  ⟨b64chrNat i % 256, Nat.mod_lt _ (by norm_num)⟩

/-- The padding byte, an equals sign. -/
def padByte : Fin 256 := 61

/-- Index of a byte in the standard alphabet, none for a byte outside the
alphabet (including the padding byte). -/
def b64Index (c : Fin 256) : Option (Fin 64) :=
  if h : 65 ≤ c.val ∧ c.val ≤ 90 then some ⟨c.val - 65, by omega⟩
  else if h : 97 ≤ c.val ∧ c.val ≤ 122 then some ⟨c.val - 71, by omega⟩
  else if h : 48 ≤ c.val ∧ c.val ≤ 57 then some ⟨c.val + 4, by omega⟩
  else if c.val = 43 then some ⟨62, by omega⟩
  else if c.val = 47 then some ⟨63, by omega⟩
  else none

def byte1 (a b : Fin 64) : Fin 256 :=
  ⟨(a.val * 4 + b.val / 16) % 256, Nat.mod_lt _ (by norm_num)⟩

def byte2 (b c : Fin 64) : Fin 256 :=
  ⟨(b.val % 16 * 16 + c.val / 4) % 256, Nat.mod_lt _ (by norm_num)⟩

def byte3 (c d : Fin 64) : Fin 256 :=
  ⟨(c.val % 4 * 64 + d.val) % 256, Nat.mod_lt _ (by norm_num)⟩

/-- base64.StdEncoding.EncodeToString: three input bytes per four output
characters, the final group padded with equals signs. -/
def encodeB64 : Bytes → Bytes
  | [] => []
  | [b] => [b64chr (b.val / 4), b64chr (b.val % 4 * 16), padByte, padByte]
  | [b, c] => [b64chr (b.val / 4), b64chr (b.val % 4 * 16 + c.val / 16),
               b64chr (c.val % 16 * 4), padByte]
  | b :: c :: d :: rest =>
      b64chr (b.val / 4) :: b64chr (b.val % 4 * 16 + c.val / 16) ::
      b64chr (c.val % 16 * 4 + d.val / 64) :: b64chr (d.val % 64) :: encodeB64 rest

/-- Decode 4-character quanta (newline bytes already removed).  Padding is
accepted only as the tail of the final quantum, exactly as Go's
decodeQuantum; trailing bits are not checked (non-strict mode). -/
def decodeQuanta : Bytes → Option Bytes
  | [] => some []
  | c1 :: c2 :: c3 :: c4 :: rest =>
    match b64Index c1, b64Index c2 with
    | some a, some b =>
      if c3 = padByte then
        if c4 = padByte ∧ rest = [] then some [byte1 a b] else none
      else
        match b64Index c3 with
        | some c =>
          if c4 = padByte then
            if rest = [] then some [byte1 a b, byte2 b c] else none
          else
            match b64Index c4 with
            | some d =>
              match decodeQuanta rest with
              | some tl => some (byte1 a b :: byte2 b c :: byte3 c d :: tl)
              | none => none
            | none => none
        | none => none
    | _, _ => none
  | _ => none

/-- The bytes Go's base64 decoder ignores: line feed and carriage return. -/
def isB64Newline (c : Fin 256) : Bool := c.val == 10 || c.val == 13

/-- base64.StdEncoding.DecodeString: carriage returns and line feeds are
ignored wherever they occur, the rest must form complete padded quanta;
a decode failure (CorruptInputError) is none. -/
def decodeB64 (s : Bytes) : Option Bytes :=
  decodeQuanta (s.filter (fun c => !isB64Newline c))

/-- decodeBase64 from the transformer: base64.StdEncoding.DecodeString with
the failure wrapped as an invalid-base64 error. -/
def decodeBase64 (encoded : Bytes) : Except TErr Bytes :=
  match decodeB64 encoded with
  | some d => .ok d
  | none => .error .invalidBase64

/-- encodeBase64 from the transformer: always succeeds. -/
def encodeBase64 (plain : Bytes) : Except TErr Bytes :=
  .ok (encodeB64 plain)

/-- containsNewline from the transformer.  The Go loop ranges over the runes
of the string and compares each with the newline rune; the newline byte is
ASCII and never occurs inside a longer UTF-8 sequence, so this holds exactly
when some byte equals 10. -/
def containsNewline (s : Bytes) : Bool := s.any (fun c => c.val == 10)

/-! ### The transformer (internal/secret/transformer.go) -/

/-- The loop body of findField: walk a mapping's content two nodes at a
time, comparing each key node's text; on a match return the value node. -/
def findFieldPairs (key : Bytes) : List YNode → Option YNode
  | k :: v :: rest => if k.value = key then some v else findFieldPairs key rest
  | _ => none

/-- findField from the transformer: nil unless the node is a mapping. -/
def findField (n : YNode) (key : Bytes) : Option YNode :=
  if n.kind = .mapping then findFieldPairs key n.content else none

/-- validateSecret from the transformer: the document node must have content,
its root must be a mapping, and the value of the kind field must read
Secret; a missing kind field and a wrong kind report the same error. -/
def validateSecret (doc : YNode) : Except TErr Unit :=
  if doc.kind = .document then
    match doc.content with
    | [] => .error .invalidDocument
    | root :: _ =>
      if root.kind = .mapping then
        match findField root keyKind with
        | some kn => if kn.value = valSecret then .ok () else .error .notASecret
        | none => .error .notASecret
      else .error .expectedMapping
  else .error .invalidDocument

/-- One scalar value node after the transform: the text is replaced by the
transform result and the style recomputed, literal block when the new text
contains a newline and the default style otherwise; the node's other fields
are untouched. -/
def transformValue (v : YNode) (t : Bytes) : YNode :=
  .node .scalar (if containsNewline t then literalStyle else 0) t v.content

/-- The loop of transformData over a data mapping's content, two nodes at a
time in original order: a scalar value is transformed, failing fast with an
error tagged with the pair's key; a non-scalar value is left untouched. -/
def transformPairs (f : Bytes → Except TErr Bytes) : List YNode → Except TErr (List YNode)
  | [] => .ok []
  | [k] => .ok [k]
  | k :: v :: rest =>
    if v.kind = .scalar then
      match f v.value with
      | .error e => .error (.transformKey k.value e)
      | .ok t =>
        match transformPairs f rest with
        | .error e => .error e
        | .ok rest2 => .ok (k :: transformValue v t :: rest2)
    else
      match transformPairs f rest with
      | .error e => .error e
      | .ok rest2 => .ok (k :: v :: rest2)

/-- Replace the value node of the first pair with the given key; Go mutates
that node in place through the pointer findField returned. -/
def setFieldPairs (key : Bytes) (newV : YNode) : List YNode → List YNode
  | k :: v :: rest =>
    if k.value = key then k :: newV :: rest else k :: v :: setFieldPairs key newV rest
  | l => l

/-- transformData from the transformer: look up data under the root; when it
is missing or not a mapping, return success without touching the document
(the source comments this as nothing to transform); otherwise transform
each value in the data section.  The empty-content branch never runs after
validateSecret (Go would panic indexing Content there). -/
def transformData (doc : YNode) (f : Bytes → Except TErr Bytes) : Except TErr YNode :=
  match doc.content with
  | [] => .ok doc
  | root :: rest =>
    match findField root keyData with
    | none => .ok doc
    | some dataNode =>
      if dataNode.kind = .mapping then
        match transformPairs f dataNode.content with
        | .error e => .error e
        | .ok c2 =>
          .ok (.node doc.kind doc.style doc.value
                (.node root.kind root.style root.value
                  (setFieldPairs keyData
                    (.node dataNode.kind dataNode.style dataNode.value c2)
                    root.content) :: rest))
      else .ok doc

/-- An input byte buffer as the pipelines observe it: whether it is
non-empty, and the outcome of yaml.Unmarshal on it (none on a parse error).
Both pipelines and IsSecret run the same parser on the same bytes, so one
oracle value describes all three. -/
structure Input where
  nonEmpty : Bool
  parsed : Option YNode

/-- DecodeSecretData: reject empty input, parse, validate, then decode every
value in the data section; the serialized output is determined by the
returned tree. -/
def DecodeSecretData (inp : Input) : Except TErr YNode :=
  if inp.nonEmpty then
    match inp.parsed with
    | none => .error .parseError
    | some doc =>
      match validateSecret doc with
      | .error e => .error e
      | .ok _ => transformData doc decodeBase64
  else .error .emptyInput

/-- EncodeSecretData: reject empty input, parse, validate, then encode every
value in the data section; the serialized output is determined by the
returned tree. -/
def EncodeSecretData (inp : Input) : Except TErr YNode :=
  if inp.nonEmpty then
    match inp.parsed with
    | none => .error .parseError
    | some doc =>
      match validateSecret doc with
      | .error e => .error e
      | .ok _ => transformData doc encodeBase64
  else .error .emptyInput

/-- IsSecret from the transformer: non-empty input that parses to a document
node with content whose root is a mapping whose kind field reads Secret. -/
def IsSecret (inp : Input) : Bool :=
  if inp.nonEmpty then
    match inp.parsed with
    | none => false
    | some doc =>
      if doc.kind = .document then
        match doc.content with
        | [] => false
        | root :: _ =>
          if root.kind = .mapping then
            match findField root keyKind with
            | some kn => kn.value = valSecret
            | none => false
          else false
      else false
  else false

/-! ### Induction helpers -/

/-- Induction over a mapping's content two nodes (one key-value pair) at a
time, matching the shape of the transformer's loops. -/
theorem pairs_ind {motive : List YNode → Prop} (h0 : motive []) (h1 : ∀ k, motive [k])
    (h2 : ∀ k v rest, motive rest → motive (k :: v :: rest)) : ∀ l, motive l
  | [] => h0
  | [k] => h1 k
  | k :: v :: rest => h2 k v rest (pairs_ind h0 h1 h2 rest)

/-- Induction over a byte string three bytes (one encoder group) at a time. -/
theorem bytes3_ind {motive : Bytes → Prop} (h0 : motive []) (h1 : ∀ b, motive [b])
    (h2 : ∀ b c, motive [b, c])
    (h3 : ∀ b c d rest, motive rest → motive (b :: c :: d :: rest)) : ∀ l, motive l
  | [] => h0
  | [b] => h1 b
  | [b, c] => h2 b c
  | b :: c :: d :: rest => h3 b c d rest (bytes3_ind h0 h1 h2 h3 rest)

/-! ### Codec lemmas -/

theorem b64Index_b64chr_all : ∀ i : Fin 64, b64Index (b64chr i.val) = some i := by decide

theorem b64chr_ne_pad_all : ∀ i : Fin 64, b64chr i.val ≠ padByte := by decide

theorem b64chr_not_newline_all : ∀ i : Fin 64, isB64Newline (b64chr i.val) = false := by
  decide

theorem b64Index_b64chr (i : Nat) (h : i < 64) : b64Index (b64chr i) = some ⟨i, h⟩ :=
  b64Index_b64chr_all ⟨i, h⟩

theorem b64chr_ne_pad (i : Nat) (h : i < 64) : b64chr i ≠ padByte :=
  b64chr_ne_pad_all ⟨i, h⟩

theorem b64chr_not_newline (i : Nat) (h : i < 64) : isB64Newline (b64chr i) = false :=
  b64chr_not_newline_all ⟨i, h⟩

theorem padByte_not_newline : isB64Newline padByte = false := by decide

/-- The encoder never emits a byte the decoder's newline filter removes. -/
theorem filter_encodeB64 :
    ∀ bs : Bytes, (encodeB64 bs).filter (fun c => !isB64Newline c) = encodeB64 bs := by
  refine bytes3_ind rfl ?_ ?_ ?_
  · intro b
    have h1 := b.isLt
    simp [encodeB64, List.filter,
      b64chr_not_newline (b.val / 4) (by omega),
      b64chr_not_newline (b.val % 4 * 16) (by omega),
      padByte_not_newline]
  · intro b c
    have h1 := b.isLt
    have h2 := c.isLt
    simp [encodeB64, List.filter,
      b64chr_not_newline (b.val / 4) (by omega),
      b64chr_not_newline (b.val % 4 * 16 + c.val / 16) (by omega),
      b64chr_not_newline (c.val % 16 * 4) (by omega),
      padByte_not_newline]
  · intro b c d rest ih
    have h1 := b.isLt
    have h2 := c.isLt
    have h3 := d.isLt
    simp only [encodeB64, List.filter,
      b64chr_not_newline (b.val / 4) (by omega),
      b64chr_not_newline (b.val % 4 * 16 + c.val / 16) (by omega),
      b64chr_not_newline (c.val % 16 * 4 + d.val / 64) (by omega),
      b64chr_not_newline (d.val % 64) (by omega), Bool.not_false]
    simpa [encodeB64] using ih

/-- Decoding inverts encoding at the quantum level. -/
theorem decodeQuanta_encodeB64 : ∀ bs : Bytes, decodeQuanta (encodeB64 bs) = some bs := by
  refine bytes3_ind rfl ?_ ?_ ?_
  · intro b
    have hb := b.isLt
    simp only [encodeB64, decodeQuanta,
      b64Index_b64chr (b.val / 4) (by omega),
      b64Index_b64chr (b.val % 4 * 16) (by omega)]
    simp only [and_self, if_true, Option.some.injEq, List.cons.injEq, and_true]
    apply Fin.ext
    show (b.val / 4 * 4 + b.val % 4 * 16 / 16) % 256 = b.val
    omega
  · intro b c
    have hb := b.isLt
    have hc := c.isLt
    simp only [encodeB64, decodeQuanta,
      b64Index_b64chr (b.val / 4) (by omega),
      b64Index_b64chr (b.val % 4 * 16 + c.val / 16) (by omega),
      b64Index_b64chr (c.val % 16 * 4) (by omega),
      if_neg (b64chr_ne_pad (c.val % 16 * 4) (by omega))]
    simp only [if_true, Option.some.injEq, List.cons.injEq, and_true]
    refine ⟨Fin.ext ?_, Fin.ext ?_⟩
    · show (b.val / 4 * 4 + (b.val % 4 * 16 + c.val / 16) / 16) % 256 = b.val
      omega
    · show ((b.val % 4 * 16 + c.val / 16) % 16 * 16 + c.val % 16 * 4 / 4) % 256 = c.val
      omega
  · intro b c d rest ih
    have hb := b.isLt
    have hc := c.isLt
    have hd := d.isLt
    simp only [encodeB64, decodeQuanta,
      b64Index_b64chr (b.val / 4) (by omega),
      b64Index_b64chr (b.val % 4 * 16 + c.val / 16) (by omega),
      b64Index_b64chr (c.val % 16 * 4 + d.val / 64) (by omega),
      b64Index_b64chr (d.val % 64) (by omega),
      if_neg (b64chr_ne_pad (c.val % 16 * 4 + d.val / 64) (by omega)),
      if_neg (b64chr_ne_pad (d.val % 64) (by omega)), ih]
    simp only [Option.some.injEq, List.cons.injEq, and_true]
    refine ⟨Fin.ext ?_, Fin.ext ?_, Fin.ext ?_⟩
    · show (b.val / 4 * 4 + (b.val % 4 * 16 + c.val / 16) / 16) % 256 = b.val
      omega
    · show ((b.val % 4 * 16 + c.val / 16) % 16 * 16 + (c.val % 16 * 4 + d.val / 64) / 4) % 256
        = c.val
      omega
    · show ((c.val % 16 * 4 + d.val / 64) % 4 * 64 + d.val % 64) % 256 = d.val
      omega

/-- Go's padded standard encoding round-trips: decoding an encoder output
recovers the input bytes exactly. -/
theorem decodeB64_encodeB64 (bs : Bytes) : decodeB64 (encodeB64 bs) = some bs := by
  unfold decodeB64
  rw [filter_encodeB64]
  exact decodeQuanta_encodeB64 bs

theorem decodeBase64_encodeB64 (bs : Bytes) : decodeBase64 (encodeB64 bs) = .ok bs := by
  unfold decodeBase64
  rw [decodeB64_encodeB64]

/-! ### Field lookup and update lemmas -/

theorem keyKind_ne_keyData : keyKind ≠ keyData := by decide

theorem findFieldPairs_setFieldPairs_ne (key key2 : Bytes) (hne : key ≠ key2) (v : YNode) :
    ∀ l, findFieldPairs key (setFieldPairs key2 v l) = findFieldPairs key l := by
  refine pairs_ind rfl (fun k => rfl) ?_
  intro k v0 rest ih
  by_cases hk2 : k.value = key2
  · simp only [setFieldPairs, if_pos hk2, findFieldPairs]
    have hk : ¬ k.value = key := by
      rw [hk2]
      exact fun h => hne h.symm
    rw [if_neg hk, if_neg hk]
  · simp only [setFieldPairs, if_neg hk2, findFieldPairs]
    by_cases hk : k.value = key
    · rw [if_pos hk, if_pos hk]
    · rw [if_neg hk, if_neg hk, ih]

theorem findFieldPairs_setFieldPairs_self (key : Bytes) (v : YNode) :
    ∀ l w, findFieldPairs key l = some w →
      findFieldPairs key (setFieldPairs key v l) = some v := by
  refine pairs_ind ?_ ?_ ?_
  · intro w h
    simp [findFieldPairs] at h
  · intro k w h
    simp [findFieldPairs] at h
  · intro k v0 rest ih w h
    by_cases hk : k.value = key
    · simp [setFieldPairs, findFieldPairs, hk]
    · simp only [findFieldPairs, if_neg hk] at h
      simp [setFieldPairs, findFieldPairs, hk, ih w h]

theorem setFieldPairs_found_self (key : Bytes) :
    ∀ l w, findFieldPairs key l = some w → setFieldPairs key w l = l := by
  refine pairs_ind ?_ ?_ ?_
  · intro w h
    simp [findFieldPairs] at h
  · intro k w h
    simp [findFieldPairs] at h
  · intro k v0 rest ih w h
    by_cases hk : k.value = key
    · simp only [findFieldPairs, if_pos hk, Option.some.injEq] at h
      simp [setFieldPairs, hk, h]
    · simp only [findFieldPairs, if_neg hk] at h
      simp [setFieldPairs, hk, ih w h]

/-! ### Transform loop lemmas -/

/-- Every error of the transform loop is tagged with the key of the failing
pair. -/
theorem transformPairs_error_shape (f : Bytes → Except TErr Bytes) :
    ∀ l e, transformPairs f l = .error e → ∃ k e2, e = .transformKey k e2 := by
  refine pairs_ind ?_ ?_ ?_
  · intro e h
    simp [transformPairs] at h
  · intro k e h
    simp [transformPairs] at h
  · intro k v rest ih e h
    by_cases hv : v.kind = .scalar
    · simp only [transformPairs, if_pos hv] at h
      cases hfv : f v.value with
      | error e2 =>
        rw [hfv] at h
        have he : TErr.transformKey k.value e2 = e := (Except.error.injEq _ _).mp h
        exact ⟨k.value, e2, he.symm⟩
      | ok t =>
        rw [hfv] at h
        cases hrest : transformPairs f rest with
        | error e2 =>
          rw [hrest] at h
          have he : e2 = e := (Except.error.injEq _ _).mp h
          exact he ▸ ih e2 hrest
        | ok rest2 =>
          rw [hrest] at h
          simp at h
    · simp only [transformPairs, if_neg hv] at h
      cases hrest : transformPairs f rest with
      | error e2 =>
        rw [hrest] at h
        have he : e2 = e := (Except.error.injEq _ _).mp h
        exact he ▸ ih e2 hrest
      | ok rest2 =>
        rw [hrest] at h
        simp at h

/-- Encoding never fails, so the encode direction of the loop never fails. -/
theorem transformPairs_encode_ok :
    ∀ l, ∃ l2, transformPairs encodeBase64 l = .ok l2 := by
  refine pairs_ind ⟨[], rfl⟩ (fun k => ⟨[k], rfl⟩) ?_
  intro k v rest ⟨rest2, ih⟩
  by_cases hv : v.kind = .scalar
  · exact ⟨k :: transformValue v (encodeB64 v.value) :: rest2,
      by simp [transformPairs, hv, encodeBase64, ih]⟩
  · exact ⟨k :: v :: rest2, by simp [transformPairs, hv, ih]⟩

/-- Pointwise description of a successful transform of a data section: keys
are kept in place; a scalar value node is rewritten to the transform result
with its style recomputed from the new text; a non-scalar value node is left
untouched; a trailing unpaired node is kept as is. -/
def transformedPairs (f : Bytes → Except TErr Bytes) : List YNode → List YNode → Prop
  | [], l2 => l2 = []
  | [k], l2 => l2 = [k]
  | k :: v :: rest, l2 =>
    ∃ v2 rest2, l2 = k :: v2 :: rest2 ∧
      (if v.kind = .scalar then
        ∃ t, f v.value = .ok t ∧ v2 = transformValue v t
       else v2 = v) ∧
      transformedPairs f rest rest2

theorem transformPairs_transformed (f : Bytes → Except TErr Bytes) :
    ∀ l l2, transformPairs f l = .ok l2 → transformedPairs f l l2 := by
  refine pairs_ind ?_ ?_ ?_
  · intro l2 h
    simp only [transformPairs, Except.ok.injEq] at h
    exact h.symm
  · intro k l2 h
    simp only [transformPairs, Except.ok.injEq] at h
    exact h.symm
  · intro k v rest ih l2 h
    by_cases hv : v.kind = .scalar
    · simp only [transformPairs, if_pos hv] at h
      cases hfv : f v.value with
      | error e => rw [hfv] at h; simp at h
      | ok t =>
        rw [hfv] at h
        cases hrest : transformPairs f rest with
        | error e => rw [hrest] at h; simp at h
        | ok rest2 =>
          rw [hrest] at h
          simp only [Except.ok.injEq] at h
          exact ⟨transformValue v t, rest2, h.symm,
            by rw [if_pos hv]; exact ⟨t, hfv, rfl⟩, ih rest2 hrest⟩
    · simp only [transformPairs, if_neg hv] at h
      cases hrest : transformPairs f rest with
      | error e => rw [hrest] at h; simp at h
      | ok rest2 =>
        rw [hrest] at h
        simp only [Except.ok.injEq] at h
        exact ⟨v, rest2, h.symm, by rw [if_neg hv], ih rest2 hrest⟩

/-! ### Frame relations -/

/-- Frame part of the transform inside the data section: keys stay in place,
every value node keeps its node kind and its children, and a value that is
not a scalar is left entirely untouched. -/
def pairsFrame : List YNode → List YNode → Prop
  | [], l2 => l2 = []
  | [k], l2 => l2 = [k]
  | k :: v :: rest, l2 =>
    ∃ v2 rest2, l2 = k :: v2 :: rest2 ∧ v2.kind = v.kind ∧ v2.content = v.content ∧
      (v.kind ≠ .scalar → v2 = v) ∧ pairsFrame rest rest2

theorem pairsFrame_refl : ∀ l, pairsFrame l l := by
  refine pairs_ind rfl (fun k => rfl) ?_
  intro k v rest ih
  exact ⟨v, rest, rfl, rfl, rfl, fun _ => rfl, ih⟩

theorem transformedPairs_frame (f : Bytes → Except TErr Bytes) :
    ∀ l l2, transformedPairs f l l2 → pairsFrame l l2 := by
  refine pairs_ind ?_ ?_ ?_
  · intro l2 h
    exact h
  · intro k l2 h
    exact h
  · intro k v rest ih l2 h
    obtain ⟨v2, rest2, hl2, hv2, hrest⟩ := h
    by_cases hv : v.kind = .scalar
    · rw [if_pos hv] at hv2
      obtain ⟨t, hft, ht⟩ := hv2
      refine ⟨v2, rest2, hl2, ?_, ?_, ?_, ih rest2 hrest⟩
      · rw [ht, hv]
        rfl
      · rw [ht]
        rfl
      · intro hns
        exact absurd hv hns
    · rw [if_neg hv] at hv2
      exact ⟨v2, rest2, hl2, by rw [hv2], by rw [hv2], fun _ => hv2, ih rest2 hrest⟩

/-- Top-level frame: all pairs of the root mapping are unchanged except the
first pair keyed data, whose value node keeps its kind, style and text and
whose children are pairsFrame-related to the originals; every pair after it
is untouched. -/
def topPairsEq : List YNode → List YNode → Prop
  | [], l2 => l2 = []
  | [k], l2 => l2 = [k]
  | k :: v :: rest, l2 =>
    if k.value = keyData then
      ∃ v2, l2 = k :: v2 :: rest ∧ v2.kind = v.kind ∧ v2.style = v.style ∧
        v2.value = v.value ∧ pairsFrame v.content v2.content
    else ∃ rest2, l2 = k :: v :: rest2 ∧ topPairsEq rest rest2

theorem topPairsEq_refl : ∀ l, topPairsEq l l := by
  refine pairs_ind rfl (fun k => rfl) ?_
  intro k v rest ih
  by_cases hk : k.value = keyData
  · simp only [topPairsEq, if_pos hk]
    exact ⟨v, rfl, rfl, rfl, rfl, pairsFrame_refl _⟩
  · simp only [topPairsEq, if_neg hk]
    exact ⟨rest, rfl, ih⟩

theorem topPairsEq_setFieldPairs (dn : YNode) (c2 : List YNode)
    (hfr : pairsFrame dn.content c2) :
    ∀ l, findFieldPairs keyData l = some dn →
      topPairsEq l (setFieldPairs keyData (.node dn.kind dn.style dn.value c2) l) := by
  refine pairs_ind ?_ ?_ ?_
  · intro h
    simp [findFieldPairs] at h
  · intro k h
    simp [findFieldPairs] at h
  · intro k v rest ih h
    by_cases hk : k.value = keyData
    · simp only [findFieldPairs, if_pos hk, Option.some.injEq] at h
      simp only [setFieldPairs, if_pos hk, topPairsEq]
      subst h
      exact ⟨_, rfl, rfl, rfl, rfl, hfr⟩
    · simp only [findFieldPairs, if_neg hk] at h
      simp only [setFieldPairs, if_neg hk, topPairsEq]
      exact ⟨_, rfl, ih h⟩

theorem findField_some_mapping (n : YNode) (key : Bytes) (w : YNode)
    (h : findField n key = some w) : n.kind = .mapping := by
  by_cases hk : n.kind = .mapping
  · exact hk
  · rw [findField, if_neg hk] at h
    simp at h

/-! ### Validation lemmas -/

/-- The checks of validateSecret, spelled out. -/
theorem validateSecret_ok_iff (doc : YNode) :
    validateSecret doc = .ok () ↔
      (doc.kind = .document ∧ ∃ root rest, doc.content = root :: rest ∧
        root.kind = .mapping ∧
        ∃ kn, findField root keyKind = some kn ∧ kn.value = valSecret) := by
  unfold validateSecret
  by_cases hd : doc.kind = .document
  · rw [if_pos hd]
    cases hc : doc.content with
    | nil =>
      simp
    | cons root rest =>
      by_cases hr : root.kind = .mapping
      · cases hf : findField root keyKind with
        | none =>
          simp [hd, hr, hf]
        | some kn =>
          by_cases hv : kn.value = valSecret
          · simp [hd, hr, hf, hv]
          · simp [hd, hr, hf, hv]
      · simp [hd, hr]
  · rw [if_neg hd]
    simp [hd]

/-- The result of a successful transform of a document whose data section is
a mapping. -/
theorem transformData_eq_of_found (doc root dataNode : YNode) (rest : List YNode)
    (f : Bytes → Except TErr Bytes) (c2 : List YNode)
    (hc : doc.content = root :: rest)
    (hfd : findField root keyData = some dataNode)
    (hm : dataNode.kind = .mapping)
    (htp : transformPairs f dataNode.content = .ok c2) :
    transformData doc f = .ok (.node doc.kind doc.style doc.value
      (.node root.kind root.style root.value
        (setFieldPairs keyData (.node dataNode.kind dataNode.style dataNode.value c2)
          root.content) :: rest)) := by
  obtain ⟨dk, ds, dv, dc⟩ := doc
  obtain ⟨nk, ns, nv, nc⟩ := dataNode
  have hc2 : dc = root :: rest := hc
  subst hc2
  have hm2 : nk = YKind.mapping := hm
  subst hm2
  have htp2 : transformPairs f nc = .ok c2 := htp
  simp only [transformData, YNode.content, hfd, htp2]
  rfl

/-- Validation still succeeds on the output of a successful transform. -/
theorem validateSecret_transformData (doc d2 : YNode) (f : Bytes → Except TErr Bytes)
    (hval : validateSecret doc = .ok ())
    (ht : transformData doc f = .ok d2) : validateSecret d2 = .ok () := by
  obtain ⟨hd, root, rest, hc, hr, kn, hf, hv⟩ := (validateSecret_ok_iff doc).mp hval
  obtain ⟨dk, ds, dv, dc⟩ := doc
  have hc2 : dc = root :: rest := hc
  subst hc2
  simp only [transformData, YNode.content] at ht
  cases hfd : findField root keyData with
  | none =>
    simp only [hfd] at ht
    have he : YNode.node dk ds dv (root :: rest) = d2 := (Except.ok.injEq _ _).mp ht
    rw [← he]
    exact hval
  | some dataNode =>
    obtain ⟨nk, ns, nv, nc⟩ := dataNode
    by_cases hm : nk = YKind.mapping
    · subst hm
      simp only [hfd, YNode.kind, if_true] at ht
      cases htp : transformPairs f nc with
      | error e =>
        simp only [htp] at ht
        simp at ht
      | ok c2 =>
        simp only [htp] at ht
        have hd2 : YNode.node dk ds dv
            (YNode.node root.kind root.style root.value
              (setFieldPairs keyData (YNode.node YKind.mapping ns nv c2)
                root.content) :: rest) = d2 := (Except.ok.injEq _ _).mp ht
        rw [← hd2]
        apply (validateSecret_ok_iff _).mpr
        refine ⟨hd, _, rest, rfl, hr, kn, ?_, hv⟩
        have hk2 : (YNode.node root.kind root.style root.value
            (setFieldPairs keyData (YNode.node YKind.mapping ns nv c2)
              root.content)).kind = YKind.mapping := hr
        rw [findField, if_pos hk2]
        show findFieldPairs keyKind (setFieldPairs keyData _ root.content) = some kn
        rw [findFieldPairs_setFieldPairs_ne keyKind keyData keyKind_ne_keyData]
        rw [findField, if_pos hr] at hf
        exact hf
    · simp only [hfd, YNode.kind, hm, if_false] at ht
      have he : YNode.node dk ds dv (root :: rest) = d2 := (Except.ok.injEq _ _).mp ht
      rw [← he]
      exact hval

/-! ### Data section extraction and round trips -/

/-- The key text and value text of each pair of a mapping's content. -/
def mapPairs : List YNode → List (Bytes × Bytes)
  | k :: v :: rest => (k.value, v.value) :: mapPairs rest
  | _ => []

/-- The pairs of the data section of a document: none when the document has
no content or its root carries no data mapping. -/
def docDataPairs (doc : YNode) : Option (List (Bytes × Bytes)) :=
  match doc.content with
  | root :: _ => (findField root keyData).map (fun dn => mapPairs dn.content)
  | [] => none

/-- Every value of a data section is a scalar whose text is a canonical
padded encoding, that is an output of the encoder. -/
def scalarCanonicalPairs : List YNode → Prop
  | _ :: v :: rest =>
    v.kind = .scalar ∧ (∃ bs, v.value = encodeB64 bs) ∧ scalarCanonicalPairs rest
  | _ => True

/-- Every value of a data section is a scalar. -/
def allScalarPairs : List YNode → Prop
  | _ :: v :: rest => v.kind = .scalar ∧ allScalarPairs rest
  | _ => True

theorem transformPairs_cons_scalar (f : Bytes → Except TErr Bytes) (k v : YNode)
    (rest l2 : List YNode) (t : Bytes)
    (hv : v.kind = .scalar) (hf : f v.value = .ok t)
    (hrest : transformPairs f rest = .ok l2) :
    transformPairs f (k :: v :: rest) = .ok (k :: transformValue v t :: l2) := by
  simp only [transformPairs, if_pos hv, hf, hrest]

theorem transformPairs_cons_nonscalar (f : Bytes → Except TErr Bytes) (k v : YNode)
    (rest l2 : List YNode) (hv : ¬ v.kind = .scalar)
    (hrest : transformPairs f rest = .ok l2) :
    transformPairs f (k :: v :: rest) = .ok (k :: v :: l2) := by
  simp only [transformPairs, if_neg hv, hrest]

/-- Reveal then conceal inside the data section: when every value is a
scalar holding canonical encoded text, decoding succeeds, re-encoding
succeeds, and the keys and value texts come back byte-identical. -/
theorem revealConcealPairs :
    ∀ l, scalarCanonicalPairs l →
      ∃ l1 l2, transformPairs decodeBase64 l = .ok l1 ∧
        transformPairs encodeBase64 l1 = .ok l2 ∧ mapPairs l2 = mapPairs l := by
  refine pairs_ind ?_ ?_ ?_
  · intro _
    exact ⟨[], [], rfl, rfl, rfl⟩
  · intro k _
    exact ⟨[k], [k], rfl, rfl, rfl⟩
  · intro k v rest ih h
    obtain ⟨hv, ⟨bs, hbs⟩, hrest⟩ := h
    obtain ⟨l1, l2, h1, h2, h3⟩ := ih hrest
    refine ⟨k :: transformValue v bs :: l1,
      k :: transformValue (transformValue v bs) (encodeB64 bs) :: l2, ?_, ?_, ?_⟩
    · exact transformPairs_cons_scalar _ k v rest l1 bs hv
        (by rw [hbs]; exact decodeBase64_encodeB64 bs) h1
    · exact transformPairs_cons_scalar _ k (transformValue v bs) l1 l2 (encodeB64 bs)
        rfl rfl h2
    · simp only [mapPairs, h3]
      rw [hbs]
      rfl

/-- Conceal then reveal inside the data section: when every value is a
scalar, encoding succeeds, decoding the result succeeds, and the keys and
value texts come back byte-identical. -/
theorem concealRevealPairs :
    ∀ l, allScalarPairs l →
      ∃ l1 l2, transformPairs encodeBase64 l = .ok l1 ∧
        transformPairs decodeBase64 l1 = .ok l2 ∧ mapPairs l2 = mapPairs l := by
  refine pairs_ind ?_ ?_ ?_
  · intro _
    exact ⟨[], [], rfl, rfl, rfl⟩
  · intro k _
    exact ⟨[k], [k], rfl, rfl, rfl⟩
  · intro k v rest ih h
    obtain ⟨hv, hrest⟩ := h
    obtain ⟨l1, l2, h1, h2, h3⟩ := ih hrest
    refine ⟨k :: transformValue v (encodeB64 v.value) :: l1,
      k :: transformValue (transformValue v (encodeB64 v.value)) v.value :: l2, ?_, ?_, ?_⟩
    · exact transformPairs_cons_scalar _ k v rest l1 _ hv rfl h1
    · exact transformPairs_cons_scalar _ k (transformValue v (encodeB64 v.value)) l1 l2
        v.value rfl (decodeBase64_encodeB64 v.value) h2
    · simp only [mapPairs, h3]
      rfl

/-- The data pairs of a document built by a successful transform. -/
theorem docDataPairs_transformed (dk : YKind) (ds : Nat) (dv : Bytes) (root : YNode)
    (rest : List YNode) (dn : YNode) (c2 : List YNode)
    (hroot : root.kind = .mapping)
    (hfd : findFieldPairs keyData root.content = some dn) :
    docDataPairs (.node dk ds dv (.node root.kind root.style root.value
      (setFieldPairs keyData (.node dn.kind dn.style dn.value c2) root.content) :: rest))
      = some (mapPairs c2) := by
  obtain ⟨rk, rs, rv, rc⟩ := root
  have hroot2 : rk = YKind.mapping := hroot
  subst hroot2
  have hfd2 : findFieldPairs keyData rc = some dn := hfd
  show (findField (YNode.node YKind.mapping rs rv
      (setFieldPairs keyData (YNode.node dn.kind dn.style dn.value c2) rc)) keyData).map
      (fun w => mapPairs w.content) = some (mapPairs c2)
  rw [findField, if_pos (show (YNode.node YKind.mapping rs rv
    (setFieldPairs keyData (YNode.node dn.kind dn.style dn.value c2) rc)).kind
      = YKind.mapping from rfl)]
  show (findFieldPairs keyData (setFieldPairs keyData
      (YNode.node dn.kind dn.style dn.value c2) rc)).map (fun w => mapPairs w.content)
    = some (mapPairs c2)
  rw [findFieldPairs_setFieldPairs_self keyData _ rc dn hfd2]
  rfl

/-- The data pairs of a document whose root carries a data node. -/
theorem docDataPairs_of_found (dk : YKind) (ds : Nat) (dv : Bytes) (root dn : YNode)
    (rest : List YNode)
    (hfd : findField root keyData = some dn) :
    docDataPairs (.node dk ds dv (root :: rest)) = some (mapPairs dn.content) := by
  show (findField root keyData).map (fun w => mapPairs w.content) = some (mapPairs dn.content)
  rw [hfd]
  rfl

/-! ### Pipeline plumbing -/

theorem docDataPairs_eq (doc root : YNode) (rest : List YNode)
    (hc : doc.content = root :: rest) :
    docDataPairs doc = (findField root keyData).map (fun w => mapPairs w.content) := by
  obtain ⟨dk, ds, dv, dc⟩ := doc
  have hc2 : dc = root :: rest := hc
  subst hc2
  rfl

theorem DecodeSecretData_val_ok (doc : YNode) (hval : validateSecret doc = .ok ()) :
    DecodeSecretData ⟨true, some doc⟩ = transformData doc decodeBase64 := by
  show (match validateSecret doc with
    | .error e => Except.error e
    | .ok _ => transformData doc decodeBase64) = transformData doc decodeBase64
  rw [hval]

theorem EncodeSecretData_val_ok (doc : YNode) (hval : validateSecret doc = .ok ()) :
    EncodeSecretData ⟨true, some doc⟩ = transformData doc encodeBase64 := by
  show (match validateSecret doc with
    | .error e => Except.error e
    | .ok _ => transformData doc encodeBase64) = transformData doc encodeBase64
  rw [hval]

theorem DecodeSecretData_val_err (doc : YNode) (e : TErr)
    (hval : validateSecret doc = .error e) :
    DecodeSecretData ⟨true, some doc⟩ = .error e := by
  show (match validateSecret doc with
    | .error e2 => Except.error e2
    | .ok _ => transformData doc decodeBase64) = Except.error e
  rw [hval]

theorem EncodeSecretData_val_err (doc : YNode) (e : TErr)
    (hval : validateSecret doc = .error e) :
    EncodeSecretData ⟨true, some doc⟩ = .error e := by
  show (match validateSecret doc with
    | .error e2 => Except.error e2
    | .ok _ => transformData doc encodeBase64) = Except.error e
  rw [hval]

/-- transformData is a no-op when the root has no data key. -/
theorem transformData_absent (doc root : YNode) (rest : List YNode)
    (f : Bytes → Except TErr Bytes)
    (hc : doc.content = root :: rest) (hfd : findField root keyData = none) :
    transformData doc f = .ok doc := by
  obtain ⟨dk, ds, dv, dc⟩ := doc
  have hc2 : dc = root :: rest := hc
  subst hc2
  simp only [transformData, YNode.content, hfd]

/-- transformData is a no-op when the data value is not a mapping. -/
theorem transformData_nonmapping (doc root dn : YNode) (rest : List YNode)
    (f : Bytes → Except TErr Bytes)
    (hc : doc.content = root :: rest) (hfd : findField root keyData = some dn)
    (hm : ¬ dn.kind = .mapping) :
    transformData doc f = .ok doc := by
  obtain ⟨dk, ds, dv, dc⟩ := doc
  obtain ⟨nk, ns, nv, nc⟩ := dn
  have hc2 : dc = root :: rest := hc
  subst hc2
  have hm2 : ¬ nk = YKind.mapping := hm
  simp only [transformData, YNode.content, hfd, YNode.kind, if_neg hm2]

/-- Two successive successful transforms of the data section, described at
the document level. -/
theorem transformData_double (doc root dn : YNode) (rest : List YNode)
    (f g : Bytes → Except TErr Bytes) (c1 c2 : List YNode)
    (hc : doc.content = root :: rest)
    (hroot : root.kind = .mapping)
    (hfd : findField root keyData = some dn)
    (hm : dn.kind = .mapping)
    (h1 : transformPairs f dn.content = .ok c1)
    (h2 : transformPairs g c1 = .ok c2) :
    ∃ d1 d2, transformData doc f = .ok d1 ∧ transformData d1 g = .ok d2 ∧
      docDataPairs d2 = some (mapPairs c2) := by
  have ht1 := transformData_eq_of_found doc root dn rest f c1 hc hfd hm h1
  have hfp : findFieldPairs keyData root.content = some dn := by
    rw [findField, if_pos hroot] at hfd
    exact hfd
  have hroot2 : (YNode.node root.kind root.style root.value
      (setFieldPairs keyData (YNode.node dn.kind dn.style dn.value c1)
        root.content)).kind = YKind.mapping := hroot
  have hfd2 : findField (YNode.node root.kind root.style root.value
      (setFieldPairs keyData (YNode.node dn.kind dn.style dn.value c1)
        root.content)) keyData = some (YNode.node dn.kind dn.style dn.value c1) := by
    rw [findField, if_pos hroot2]
    exact findFieldPairs_setFieldPairs_self keyData _ root.content dn hfp
  have hfp2 : findFieldPairs keyData
      (setFieldPairs keyData (YNode.node dn.kind dn.style dn.value c1) root.content)
      = some (YNode.node dn.kind dn.style dn.value c1) :=
    findFieldPairs_setFieldPairs_self keyData _ root.content dn hfp
  have ht2 := transformData_eq_of_found
    (YNode.node doc.kind doc.style doc.value
      (YNode.node root.kind root.style root.value
        (setFieldPairs keyData (YNode.node dn.kind dn.style dn.value c1)
          root.content) :: rest))
    (YNode.node root.kind root.style root.value
      (setFieldPairs keyData (YNode.node dn.kind dn.style dn.value c1) root.content))
    (YNode.node dn.kind dn.style dn.value c1) rest g c2 rfl hfd2 hm h2
  refine ⟨_, _, ht1, ht2, ?_⟩
  exact docDataPairs_transformed doc.kind doc.style doc.value
    (YNode.node root.kind root.style root.value
      (setFieldPairs keyData (YNode.node dn.kind dn.style dn.value c1) root.content))
    rest (YNode.node dn.kind dn.style dn.value c1) c2 hroot2 hfp2

/-! ### Concrete documents for witnesses and counterexamples -/

/-- A plain scalar node, as the parser produces for an unquoted value. -/
def scalarNode (v : Bytes) : YNode := .node .scalar 0 v []

/-- The bytes of the key text stringData. -/
def keyStringData : Bytes := [115, 116, 114, 105, 110, 103, 68, 97, 116, 97]

/-- A Secret document whose data value is a sequence, not a mapping. -/
def c1doc : YNode :=
  .node .document 0 []
    [.node .mapping 0 []
      [scalarNode keyKind, scalarNode valSecret,
       scalarNode keyData, .node .sequence 0 [] []]]

/-! ### Claim C1 -/

/-- C1 counterexample: on a Secret document whose data value is a sequence
rather than a mapping, both DecodeSecretData and EncodeSecretData succeed
and return an output document (the input, unchanged), instead of returning
a structural error; the claim fails on the code, whose transform silently
skips a non-mapping data section. -/
theorem C1_counterexample :
    DecodeSecretData ⟨true, some c1doc⟩ = .ok c1doc ∧
    EncodeSecretData ⟨true, some c1doc⟩ = .ok c1doc := by
  constructor
  · rfl
  · rfl

/-- C1 amended: when the data value under the root of a valid Secret
document exists but is not a mapping, both pipelines succeed and return the
document unchanged — the malformed section is silently skipped, and no
error is raised. -/
theorem C1_amended_theorem (doc root dn : YNode) (rest : List YNode)
    (hc : doc.content = root :: rest)
    (hval : validateSecret doc = .ok ())
    (hfd : findField root keyData = some dn)
    (hm : ¬ dn.kind = .mapping) :
    DecodeSecretData ⟨true, some doc⟩ = .ok doc ∧
    EncodeSecretData ⟨true, some doc⟩ = .ok doc := by
  constructor
  · rw [DecodeSecretData_val_ok doc hval]
    exact transformData_nonmapping doc root dn rest decodeBase64 hc hfd hm
  · rw [EncodeSecretData_val_ok doc hval]
    exact transformData_nonmapping doc root dn rest encodeBase64 hc hfd hm

/-- C1 witness: the amended statement evaluated on a concrete Secret
document whose data value is a sequence. -/
theorem C1_witness :
    c1doc.content = (.node .mapping 0 []
      [scalarNode keyKind, scalarNode valSecret,
       scalarNode keyData, .node .sequence 0 [] []]) :: [] ∧
    validateSecret c1doc = .ok () ∧
    (DecodeSecretData ⟨true, some c1doc⟩ = .ok c1doc ∧
     EncodeSecretData ⟨true, some c1doc⟩ = .ok c1doc) :=
  ⟨rfl, rfl,
    C1_amended_theorem c1doc
      (.node .mapping 0 []
        [scalarNode keyKind, scalarNode valSecret,
         scalarNode keyData, .node .sequence 0 [] []])
      (.node .sequence 0 [] []) [] rfl rfl rfl (by intro h; cases h)⟩

/-! ### Claim C2 -/

/-- The data key of the C2 counterexample document. -/
def c2key : Bytes := [107]

/-- The non-canonical encoded text AB== : it decodes (Go's decoder is
non-strict about trailing bits) but is not an encoder output. -/
def c2val : Bytes := [65, 66, 61, 61]

/-- A valid Secret document whose single data value is AB==. -/
def c2doc : YNode :=
  .node .document 0 []
    [.node .mapping 0 []
      [scalarNode keyKind, scalarNode valSecret,
       scalarNode keyData, .node .mapping 0 [] [scalarNode c2key, scalarNode c2val]]]

/-- The C2 document after reveal: AB== decoded to the single zero byte. -/
def c2docRevealed : YNode :=
  .node .document 0 []
    [.node .mapping 0 []
      [scalarNode keyKind, scalarNode valSecret,
       scalarNode keyData, .node .mapping 0 [] [scalarNode c2key, scalarNode [0]]]]

/-- The C2 document after reveal then conceal: the zero byte re-encodes as
AA==, not the original AB==. -/
def c2docFinal : YNode :=
  .node .document 0 []
    [.node .mapping 0 []
      [scalarNode keyKind, scalarNode valSecret,
       scalarNode keyData,
       .node .mapping 0 [] [scalarNode c2key, scalarNode [65, 65, 61, 61]]]]

/-- C2 counterexample: a valid Secret document whose data value AB== decodes
successfully, yet reveal followed by conceal returns AA== for that key —
the original encoded scalar is not reproduced byte-for-byte, because the
decoder is non-strict and AB== is not canonical. -/
theorem C2_counterexample :
    DecodeSecretData ⟨true, some c2doc⟩ = .ok c2docRevealed ∧
    EncodeSecretData ⟨true, some c2docRevealed⟩ = .ok c2docFinal ∧
    docDataPairs c2doc = some [(c2key, c2val)] ∧
    docDataPairs c2docFinal = some [(c2key, [65, 65, 61, 61])] ∧
    c2val ≠ [65, 65, 61, 61] := by
  refine ⟨rfl, rfl, rfl, rfl, ?_⟩
  decide

/-- C2 amended: for a valid Secret document whose data section contains only
scalar values that are canonical padded encodings (encoder outputs), reveal
followed by conceal succeeds and reproduces every data key and encoded
value byte-for-byte. -/
theorem C2_theorem (doc root : YNode) (rest : List YNode)
    (hc : doc.content = root :: rest)
    (hval : validateSecret doc = .ok ())
    (hcanon : ∀ dn, findField root keyData = some dn → dn.kind = .mapping →
      scalarCanonicalPairs dn.content) :
    ∃ d1 d2, DecodeSecretData ⟨true, some doc⟩ = .ok d1 ∧
      EncodeSecretData ⟨true, some d1⟩ = .ok d2 ∧
      docDataPairs d2 = docDataPairs doc := by
  obtain ⟨hdk, root', rest', hc', hr, kn, hkf, hkv⟩ := (validateSecret_ok_iff doc).mp hval
  rw [hc] at hc'
  injection hc' with hr1 hr2
  subst hr1
  subst hr2
  cases hfd : findField root keyData with
  | none =>
    refine ⟨doc, doc, ?_, ?_, rfl⟩
    · rw [DecodeSecretData_val_ok doc hval]
      exact transformData_absent doc root rest decodeBase64 hc hfd
    · rw [EncodeSecretData_val_ok doc hval]
      exact transformData_absent doc root rest encodeBase64 hc hfd
  | some dn =>
    by_cases hm : dn.kind = .mapping
    · obtain ⟨c1, c2, h1, h2, h3⟩ := revealConcealPairs dn.content (hcanon dn hfd hm)
      obtain ⟨d1, d2, ht1, ht2, hdd⟩ := transformData_double doc root dn rest
        decodeBase64 encodeBase64 c1 c2 hc hr hfd hm h1 h2
      refine ⟨d1, d2, ?_, ?_, ?_⟩
      · rw [DecodeSecretData_val_ok doc hval]
        exact ht1
      · rw [EncodeSecretData_val_ok d1
          (validateSecret_transformData doc d1 decodeBase64 hval ht1)]
        exact ht2
      · rw [hdd, docDataPairs_eq doc root rest hc, hfd]
        show some (mapPairs c2) = some (mapPairs dn.content)
        rw [h3]
    · refine ⟨doc, doc, ?_, ?_, rfl⟩
      · rw [DecodeSecretData_val_ok doc hval]
        exact transformData_nonmapping doc root dn rest decodeBase64 hc hfd hm
      · rw [EncodeSecretData_val_ok doc hval]
        exact transformData_nonmapping doc root dn rest encodeBase64 hc hfd hm

/-- The plaintext admin. -/
def c2wplain : Bytes := [97, 100, 109, 105, 110]

/-- The canonical encoding of admin. -/
def c2wenc : Bytes := [89, 87, 82, 116, 97, 87, 52, 61]

/-- The data section of the C2 witness document. -/
def c2wdataNode : YNode := .node .mapping 0 [] [scalarNode [117], scalarNode c2wenc]

/-- The root of the C2 witness document. -/
def c2wroot : YNode :=
  .node .mapping 0 []
    [scalarNode keyKind, scalarNode valSecret, scalarNode keyData, c2wdataNode]

/-- A valid Secret document with one canonical data value. -/
def c2wdoc : YNode := .node .document 0 [] [c2wroot]

/-- C2 witness: the amended round trip evaluated on a concrete document
with the canonical value of admin. -/
theorem C2_witness :
    c2wdoc.content = c2wroot :: [] ∧
    validateSecret c2wdoc = .ok () ∧
    (∃ d1 d2, DecodeSecretData ⟨true, some c2wdoc⟩ = .ok d1 ∧
      EncodeSecretData ⟨true, some d1⟩ = .ok d2 ∧
      docDataPairs d2 = docDataPairs c2wdoc) :=
  ⟨rfl, rfl,
    C2_theorem c2wdoc c2wroot [] rfl rfl (fun dn h hm => by
      have h2 : c2wdataNode = dn := (Option.some.injEq _ _).mp h
      rw [← h2]
      exact ⟨rfl, ⟨c2wplain, rfl⟩, trivial⟩)⟩

/-! ### Claim C3 -/

/-- A properly paired prefix of a data section in which every scalar value
decodes successfully (non-scalar values are skipped by the loop). -/
def okPairs : List YNode → Prop
  | [] => True
  | [_] => False
  | _ :: v :: rest => (v.kind = .scalar → (decodeB64 v.value).isSome = true) ∧ okPairs rest

/-- The decode loop stops at the first failing pair and reports its key. -/
theorem transformPairs_first_fail :
    ∀ pre, okPairs pre → ∀ k v : YNode, ∀ post : List YNode,
      v.kind = .scalar → decodeB64 v.value = none →
      transformPairs decodeBase64 (pre ++ k :: v :: post) =
        .error (.transformKey k.value .invalidBase64) := by
  refine pairs_ind ?_ ?_ ?_
  · intro _ k v post hv hbad
    have hdb : decodeBase64 v.value = .error .invalidBase64 := by
      unfold decodeBase64
      rw [hbad]
    simp only [List.nil_append, transformPairs, if_pos hv, hdb]
  · intro x hfalse
    exact False.elim hfalse
  · intro k0 v0 pre ih hok k v post hv hbad
    obtain ⟨h0, hrest⟩ := hok
    by_cases hv0 : v0.kind = .scalar
    · have hsome := h0 hv0
      cases hd : decodeB64 v0.value with
      | none =>
        rw [hd] at hsome
        simp at hsome
      | some t =>
        have hok0 : decodeBase64 v0.value = .ok t := by
          unfold decodeBase64
          rw [hd]
        show transformPairs decodeBase64 (k0 :: v0 :: (pre ++ k :: v :: post)) = _
        simp only [transformPairs, if_pos hv0, hok0, ih hrest k v post hv hbad]
    · show transformPairs decodeBase64 (k0 :: v0 :: (pre ++ k :: v :: post)) = _
      simp only [transformPairs, if_neg hv0, ih hrest k v post hv hbad]

/-- C3: when the data section's pairs, in original order, begin with a
properly paired prefix whose scalar values all decode, followed by a pair
whose scalar value is not valid base64, DecodeSecretData fails with the
error naming exactly that pair's key and returns no output document. -/
theorem C3_theorem (doc root dn k v : YNode) (rest pre post : List YNode)
    (hc : doc.content = root :: rest)
    (hval : validateSecret doc = .ok ())
    (hfd : findField root keyData = some dn)
    (hm : dn.kind = .mapping)
    (hsplit : dn.content = pre ++ k :: v :: post)
    (hpre : okPairs pre)
    (hv : v.kind = .scalar)
    (hbad : decodeB64 v.value = none) :
    DecodeSecretData ⟨true, some doc⟩ = .error (.transformKey k.value .invalidBase64) := by
  rw [DecodeSecretData_val_ok doc hval]
  obtain ⟨dk, ds, dv, dc⟩ := doc
  obtain ⟨nk, ns, nv, nc⟩ := dn
  have hc2 : dc = root :: rest := hc
  subst hc2
  have hm2 : nk = YKind.mapping := hm
  subst hm2
  have hnc : nc = pre ++ k :: v :: post := hsplit
  subst hnc
  have herr := transformPairs_first_fail pre hpre k v post hv hbad
  simp only [transformData, YNode.content, hfd, YNode.kind, if_true, herr]

/-- The bytes of the text not-valid-base64!!! -/
def c3bad : Bytes :=
  [110, 111, 116, 45, 118, 97, 108, 105, 100, 45, 98, 97, 115, 101, 54, 52, 33, 33, 33]

/-- The data section of the C3 witness: a decodable pair, then the bad pair
keyed bad, then one more undecodable pair that is never reached. -/
def c3dataNode : YNode :=
  .node .mapping 0 []
    [scalarNode [103, 111, 111, 100], scalarNode [89, 81, 61, 61],
     scalarNode [98, 97, 100], scalarNode c3bad,
     scalarNode [117], scalarNode [33, 33, 33]]

/-- The root of the C3 witness document. -/
def c3root : YNode :=
  .node .mapping 0 []
    [scalarNode keyKind, scalarNode valSecret, scalarNode keyData, c3dataNode]

/-- The C3 witness document. -/
def c3doc : YNode := .node .document 0 [] [c3root]

/-- C3 witness: the fail-fast behaviour evaluated on a concrete document;
the error names the key bad, not the later failing key. -/
theorem C3_witness :
    validateSecret c3doc = .ok () ∧
    findField c3root keyData = some c3dataNode ∧
    decodeB64 c3bad = none ∧
    DecodeSecretData ⟨true, some c3doc⟩ =
      .error (.transformKey [98, 97, 100] .invalidBase64) :=
  ⟨rfl, rfl, rfl,
    C3_theorem c3doc c3root c3dataNode (scalarNode [98, 97, 100]) (scalarNode c3bad)
      [] [scalarNode [103, 111, 111, 100], scalarNode [89, 81, 61, 61]]
      [scalarNode [117], scalarNode [33, 33, 33]]
      rfl rfl rfl rfl rfl ⟨fun _ => rfl, trivial⟩ rfl rfl⟩

/-! ### Claim C4 -/

/-- C4: for non-empty input that parses to a document, both pipelines fail
with the same error as validateSecret — the transform stage never runs in
that case, since validation short-circuits the pipeline — exactly when the
parsed document fails the shape check: its root is not a mapping (including
the degenerate case of a document with no root node), or the root has no
kind key, or the kind value is not the text Secret.  validateSecret is a
pure function that only inspects the tree, so validation mutates nothing. -/
theorem C4_theorem (inp : Input) (doc : YNode)
    (hne : inp.nonEmpty = true) (hp : inp.parsed = some doc) :
    (∃ e, validateSecret doc = .error e ∧
      DecodeSecretData inp = .error e ∧ EncodeSecretData inp = .error e)
    ↔ ¬ (doc.kind = .document ∧ ∃ root rest, doc.content = root :: rest ∧
          root.kind = .mapping ∧
          ∃ kn, findField root keyKind = some kn ∧ kn.value = valSecret) := by
  obtain ⟨ne, par⟩ := inp
  have hne2 : ne = true := hne
  subst hne2
  have hp2 : par = some doc := hp
  subst hp2
  constructor
  · rintro ⟨e, hve, -, -⟩ hshape
    rw [(validateSecret_ok_iff doc).mpr hshape] at hve
    cases hve
  · intro hshape
    cases hv : validateSecret doc with
    | ok u =>
      cases u
      exact absurd ((validateSecret_ok_iff doc).mp hv) hshape
    | error e =>
      exact ⟨e, rfl, DecodeSecretData_val_err doc e hv, EncodeSecretData_val_err doc e hv⟩

/-- The bytes of the text ConfigMap. -/
def valConfigMap : Bytes := [67, 111, 110, 102, 105, 103, 77, 97, 112]

/-- The root of the C4 witness: a ConfigMap with an otherwise Secret-like
shape. -/
def c4root : YNode :=
  .node .mapping 0 []
    [scalarNode keyKind, scalarNode valConfigMap,
     scalarNode keyData, .node .mapping 0 [] [scalarNode [107], scalarNode [118]]]

/-- The C4 witness document. -/
def c4doc : YNode := .node .document 0 [] [c4root]

/-- C4 witness: a parsed kind ConfigMap document makes both pipelines fail
with the validation error. -/
theorem C4_witness :
    (⟨true, some c4doc⟩ : Input).nonEmpty = true ∧
    (⟨true, some c4doc⟩ : Input).parsed = some c4doc ∧
    (∃ e, validateSecret c4doc = .error e ∧
      DecodeSecretData ⟨true, some c4doc⟩ = .error e ∧
      EncodeSecretData ⟨true, some c4doc⟩ = .error e) :=
  ⟨rfl, rfl,
    (C4_theorem ⟨true, some c4doc⟩ c4doc rfl rfl).mpr (by
      rintro ⟨-, root, rest, hcont, -, kn, hfind, hvv⟩
      have hcont2 : c4root :: [] = root :: rest := hcont
      injection hcont2 with h1 h2
      subst h1
      have h3 : scalarNode valConfigMap = kn := (Option.some.injEq _ _).mp hfind
      rw [← h3] at hvv
      exact absurd hvv (by decide))⟩

/-! ### Pipeline inversion -/

theorem DecodeSecretData_ok_inv (doc d2 : YNode)
    (h : DecodeSecretData ⟨true, some doc⟩ = .ok d2) :
    transformData doc decodeBase64 = .ok d2 := by
  cases hv : validateSecret doc with
  | error e =>
    rw [DecodeSecretData_val_err doc e hv] at h
    cases h
  | ok u =>
    cases u
    rw [DecodeSecretData_val_ok doc hv] at h
    exact h

theorem EncodeSecretData_ok_inv (doc d2 : YNode)
    (h : EncodeSecretData ⟨true, some doc⟩ = .ok d2) :
    transformData doc encodeBase64 = .ok d2 := by
  cases hv : validateSecret doc with
  | error e =>
    rw [EncodeSecretData_val_err doc e hv] at h
    cases h
  | ok u =>
    cases u
    rw [EncodeSecretData_val_ok doc hv] at h
    exact h

/-! ### Claim C5 -/

theorem transformData_nil (doc : YNode) (f : Bytes → Except TErr Bytes)
    (hc : doc.content = []) : transformData doc f = .ok doc := by
  obtain ⟨dk, ds, dv, dc⟩ := doc
  have hc2 : dc = [] := hc
  subst hc2
  rfl

theorem transformData_err_of_found (doc root dn : YNode) (rest : List YNode)
    (f : Bytes → Except TErr Bytes) (e : TErr)
    (hc : doc.content = root :: rest)
    (hfd : findField root keyData = some dn)
    (hm : dn.kind = .mapping)
    (htp : transformPairs f dn.content = .error e) :
    transformData doc f = .error e := by
  obtain ⟨dk, ds, dv, dc⟩ := doc
  obtain ⟨nk, ns, nv, nc⟩ := dn
  have hc2 : dc = root :: rest := hc
  subst hc2
  have hm2 : nk = YKind.mapping := hm
  subst hm2
  have htp2 : transformPairs f nc = .error e := htp
  simp only [transformData, YNode.content, hfd, YNode.kind, if_true, htp2]

/-- The frame of any successful transform: the document and root node keep
every field, the pairs of the root mapping are untouched except the first
data pair, and inside the data section only scalar value texts and styles
change. -/
theorem transformData_frame (f : Bytes → Except TErr Bytes) (doc d2 : YNode)
    (h : transformData doc f = .ok d2) :
    d2.kind = doc.kind ∧ d2.style = doc.style ∧ d2.value = doc.value ∧
    ((doc.content = [] ∧ d2 = doc) ∨
      ∃ root root2 rest, doc.content = root :: rest ∧ d2.content = root2 :: rest ∧
        root2.kind = root.kind ∧ root2.style = root.style ∧ root2.value = root.value ∧
        topPairsEq root.content root2.content) := by
  cases hc : doc.content with
  | nil =>
    have hnoop := transformData_nil doc f hc
    rw [h] at hnoop
    have he : d2 = doc := (Except.ok.injEq _ _).mp hnoop
    subst he
    exact ⟨rfl, rfl, rfl, Or.inl ⟨rfl, rfl⟩⟩
  | cons root rest =>
    cases hfd : findField root keyData with
    | none =>
      have hnoop := transformData_absent doc root rest f hc hfd
      rw [h] at hnoop
      have he : d2 = doc := (Except.ok.injEq _ _).mp hnoop
      subst he
      exact ⟨rfl, rfl, rfl,
        Or.inr ⟨root, root, rest, rfl, hc, rfl, rfl, rfl, topPairsEq_refl _⟩⟩
    | some dn =>
      by_cases hm : dn.kind = .mapping
      · cases htp : transformPairs f dn.content with
        | error e =>
          rw [transformData_err_of_found doc root dn rest f e hc hfd hm htp] at h
          cases h
        | ok c2 =>
          have ht := transformData_eq_of_found doc root dn rest f c2 hc hfd hm htp
          rw [h] at ht
          have he := (Except.ok.injEq _ _).mp ht
          subst he
          have hroot := findField_some_mapping root keyData dn hfd
          have hfp : findFieldPairs keyData root.content = some dn := by
            rw [findField, if_pos hroot] at hfd
            exact hfd
          have hfr : pairsFrame dn.content c2 :=
            transformedPairs_frame f dn.content c2
              (transformPairs_transformed f dn.content c2 htp)
          exact ⟨rfl, rfl, rfl,
            Or.inr ⟨root, _, rest, rfl, rfl, rfl, rfl, rfl,
              topPairsEq_setFieldPairs dn c2 hfr root.content hfp⟩⟩
      · have hnoop := transformData_nonmapping doc root dn rest f hc hfd hm
        rw [h] at hnoop
        have he : d2 = doc := (Except.ok.injEq _ _).mp hnoop
        subst he
        exact ⟨rfl, rfl, rfl,
          Or.inr ⟨root, root, rest, rfl, hc, rfl, rfl, rfl, topPairsEq_refl _⟩⟩

/-- C5: on every successful run of either pipeline, the only changes are to
scalar values directly under the top-level data mapping: the document node
and the root node keep their fields, every top-level pair other than the
first data pair — in particular a stringData pair — is byte-identical, the
key ordering of every mapping is preserved, the data mapping keeps its own
fields, and inside it keys are unchanged and non-scalar values untouched. -/
theorem C5_theorem (doc d2 : YNode)
    (h : DecodeSecretData ⟨true, some doc⟩ = .ok d2 ∨
         EncodeSecretData ⟨true, some doc⟩ = .ok d2) :
    d2.kind = doc.kind ∧ d2.style = doc.style ∧ d2.value = doc.value ∧
    ((doc.content = [] ∧ d2 = doc) ∨
      ∃ root root2 rest, doc.content = root :: rest ∧ d2.content = root2 :: rest ∧
        root2.kind = root.kind ∧ root2.style = root.style ∧ root2.value = root.value ∧
        topPairsEq root.content root2.content) := by
  cases h with
  | inl h => exact transformData_frame decodeBase64 doc d2 (DecodeSecretData_ok_inv doc d2 h)
  | inr h => exact transformData_frame encodeBase64 doc d2 (EncodeSecretData_ok_inv doc d2 h)

/-- The bytes of the text plaintext. -/
def c5plainVal : Bytes := [112, 108, 97, 105, 110, 116, 101, 120, 116]

/-- The stringData section of the C5 witness. -/
def c5sdNode : YNode := .node .mapping 0 [] [scalarNode [112], scalarNode c5plainVal]

/-- The data section of the C5 witness: one encoded value. -/
def c5dataNode : YNode :=
  .node .mapping 0 []
    [scalarNode [117], scalarNode [89, 87, 82, 116, 97, 87, 52, 61]]

/-- The root of the C5 witness document, carrying both data and stringData. -/
def c5root : YNode :=
  .node .mapping 0 []
    [scalarNode keyKind, scalarNode valSecret,
     scalarNode keyData, c5dataNode,
     scalarNode keyStringData, c5sdNode]

/-- The C5 witness document. -/
def c5doc : YNode := .node .document 0 [] [c5root]

/-- The C5 witness document after the decode pipeline: only the data value
changed (to the plaintext admin); stringData is untouched. -/
def c5out : YNode :=
  .node .document 0 []
    [.node .mapping 0 []
      [scalarNode keyKind, scalarNode valSecret,
       scalarNode keyData,
       .node .mapping 0 [] [scalarNode [117], scalarNode [97, 100, 109, 105, 110]],
       scalarNode keyStringData, c5sdNode]]

/-- C5 witness: the frame property evaluated on a concrete document holding
both data and stringData, run through the decode pipeline. -/
theorem C5_witness :
    DecodeSecretData ⟨true, some c5doc⟩ = .ok c5out ∧
    (c5out.kind = c5doc.kind ∧ c5out.style = c5doc.style ∧ c5out.value = c5doc.value ∧
      ((c5doc.content = [] ∧ c5out = c5doc) ∨
        ∃ root root2 rest, c5doc.content = root :: rest ∧ c5out.content = root2 :: rest ∧
          root2.kind = root.kind ∧ root2.style = root.style ∧ root2.value = root.value ∧
          topPairsEq root.content root2.content)) :=
  ⟨rfl, C5_theorem c5doc c5out (Or.inl rfl)⟩

/-! ### Claim C6 -/

/-- C6: a valid Secret document whose root has no data key passes both
pipelines unchanged — the transform performs no mutation when the target
section is absent, and the serializer is a deterministic function of the
tree, so the output differs from the input at most by canonical
re-serialization. -/
theorem C6_theorem (doc root : YNode) (rest : List YNode)
    (hc : doc.content = root :: rest)
    (hval : validateSecret doc = .ok ())
    (habs : findField root keyData = none) :
    DecodeSecretData ⟨true, some doc⟩ = .ok doc ∧
    EncodeSecretData ⟨true, some doc⟩ = .ok doc := by
  constructor
  · rw [DecodeSecretData_val_ok doc hval]
    exact transformData_absent doc root rest decodeBase64 hc habs
  · rw [EncodeSecretData_val_ok doc hval]
    exact transformData_absent doc root rest encodeBase64 hc habs

/-- The root of the C6 witness: a Secret with only a stringData section. -/
def c6root : YNode :=
  .node .mapping 0 []
    [scalarNode keyKind, scalarNode valSecret,
     scalarNode keyStringData,
     .node .mapping 0 [] [scalarNode [112], scalarNode [97, 98, 99]]]

/-- The C6 witness document. -/
def c6doc : YNode := .node .document 0 [] [c6root]

/-- C6 witness: the no-op behaviour evaluated on a concrete document with
no data key. -/
theorem C6_witness :
    validateSecret c6doc = .ok () ∧
    findField c6root keyData = none ∧
    (DecodeSecretData ⟨true, some c6doc⟩ = .ok c6doc ∧
     EncodeSecretData ⟨true, some c6doc⟩ = .ok c6doc) :=
  ⟨rfl, rfl, C6_theorem c6doc c6root [] rfl rfl rfl⟩

/-! ### Claim C7 -/

/-- C7: on a successful run of either pipeline over a document whose data
section is a mapping, each data pair is processed in original order: a
scalar value node has its text replaced by the transform result and its
style recomputed — literal block exactly when the new text contains a
newline, the default plain style otherwise — while a non-scalar value node
is left untouched (transformedPairs spells out precisely this relation,
with transformValue carrying the style rule). -/
theorem C7_theorem (doc root dn d2 : YNode) (rest : List YNode)
    (f : Bytes → Except TErr Bytes)
    (hc : doc.content = root :: rest)
    (hfd : findField root keyData = some dn)
    (hm : dn.kind = .mapping)
    (hpipe : (DecodeSecretData ⟨true, some doc⟩ = .ok d2 ∧ f = decodeBase64) ∨
             (EncodeSecretData ⟨true, some doc⟩ = .ok d2 ∧ f = encodeBase64)) :
    ∃ root2 dn2, d2.content = root2 :: rest ∧ findField root2 keyData = some dn2 ∧
      dn2.kind = dn.kind ∧ dn2.style = dn.style ∧ dn2.value = dn.value ∧
      transformedPairs f dn.content dn2.content := by
  have ht : transformData doc f = .ok d2 := by
    cases hpipe with
    | inl h =>
      rw [h.2]
      exact DecodeSecretData_ok_inv doc d2 h.1
    | inr h =>
      rw [h.2]
      exact EncodeSecretData_ok_inv doc d2 h.1
  cases htp : transformPairs f dn.content with
  | error e =>
    rw [transformData_err_of_found doc root dn rest f e hc hfd hm htp] at ht
    cases ht
  | ok c2 =>
    have heq := transformData_eq_of_found doc root dn rest f c2 hc hfd hm htp
    rw [ht] at heq
    have he := (Except.ok.injEq _ _).mp heq
    subst he
    have hroot := findField_some_mapping root keyData dn hfd
    have hfp : findFieldPairs keyData root.content = some dn := by
      rw [findField, if_pos hroot] at hfd
      exact hfd
    refine ⟨_, .node dn.kind dn.style dn.value c2, rfl, ?_, rfl, rfl, rfl,
      transformPairs_transformed f dn.content c2 htp⟩
    rw [findField, if_pos (show (YNode.node root.kind root.style root.value
      (setFieldPairs keyData (YNode.node dn.kind dn.style dn.value c2)
        root.content)).kind = YKind.mapping from hroot)]
    exact findFieldPairs_setFieldPairs_self keyData _ root.content dn hfp

/-- The encoding of the three-line text line1 line2 line3. -/
def c7multiEnc : Bytes :=
  [98, 71, 108, 117, 90, 84, 69, 75, 98, 71, 108, 117, 90, 84, 73, 75,
   98, 71, 108, 117, 90, 84, 77, 61]

/-- The three-line plaintext, with embedded newlines. -/
def c7multiPlain : Bytes :=
  [108, 105, 110, 101, 49, 10, 108, 105, 110, 101, 50, 10, 108, 105, 110, 101, 51]

/-- The data section of the C7 witness: a multi-line value and the
single-line value admin. -/
def c7dataNode : YNode :=
  .node .mapping 0 []
    [scalarNode [97], scalarNode c7multiEnc,
     scalarNode [98], scalarNode [89, 87, 82, 116, 97, 87, 52, 61]]

/-- The root of the C7 witness document. -/
def c7root : YNode :=
  .node .mapping 0 []
    [scalarNode keyKind, scalarNode valSecret, scalarNode keyData, c7dataNode]

/-- The C7 witness document. -/
def c7doc : YNode := .node .document 0 [] [c7root]

/-- The C7 witness after decoding: the multi-line value is rendered in
literal-block style (style 8) and the single-line value admin in plain
style (style 0). -/
def c7out : YNode :=
  .node .document 0 []
    [.node .mapping 0 []
      [scalarNode keyKind, scalarNode valSecret,
       scalarNode keyData,
       .node .mapping 0 []
         [scalarNode [97], .node .scalar literalStyle c7multiPlain [],
          scalarNode [98], scalarNode [97, 100, 109, 105, 110]]]]

/-- C7 witness: the per-pair transform behaviour evaluated on a concrete
document through the decode pipeline; decoding the encoding of the
three-line text yields literal-block style, decoding the encoding of admin
yields plain style. -/
theorem C7_witness :
    DecodeSecretData ⟨true, some c7doc⟩ = .ok c7out ∧
    containsNewline c7multiPlain = true ∧
    containsNewline [97, 100, 109, 105, 110] = false ∧
    (∃ root2 dn2, c7out.content = root2 :: [] ∧ findField root2 keyData = some dn2 ∧
      dn2.kind = c7dataNode.kind ∧ dn2.style = c7dataNode.style ∧
      dn2.value = c7dataNode.value ∧
      transformedPairs decodeBase64 c7dataNode.content dn2.content) :=
  ⟨rfl, rfl, rfl,
    C7_theorem c7doc c7root c7dataNode c7out [] decodeBase64 rfl rfl rfl
      (Or.inl ⟨rfl, rfl⟩)⟩

/-! ### Claim C8 -/

theorem YNode.eta (n : YNode) : YNode.node n.kind n.style n.value n.content = n := by
  obtain ⟨k, s, v, c⟩ := n
  rfl

/-- C8: a valid Secret document whose data value is an empty mapping passes
both pipelines completely unchanged — the data key is still present, its
value still an empty mapping node with the same flow style, so the
deterministic serializer renders it exactly as it rendered the input
(as an empty flow mapping, not an omitted key and not null). -/
theorem C8_theorem (doc root dn : YNode) (rest : List YNode)
    (hc : doc.content = root :: rest)
    (hval : validateSecret doc = .ok ())
    (hfd : findField root keyData = some dn)
    (hm : dn.kind = .mapping) (hempty : dn.content = []) :
    DecodeSecretData ⟨true, some doc⟩ = .ok doc ∧
    EncodeSecretData ⟨true, some doc⟩ = .ok doc ∧
    docDataPairs doc = some [] := by
  have hroot := findField_some_mapping root keyData dn hfd
  have hfp : findFieldPairs keyData root.content = some dn := by
    rw [findField, if_pos hroot] at hfd
    exact hfd
  have hnoop : ∀ f : Bytes → Except TErr Bytes, transformData doc f = .ok doc := by
    intro f
    have htp : transformPairs f dn.content = .ok [] := by
      rw [hempty]
      rfl
    have h1 := transformData_eq_of_found doc root dn rest f [] hc
      (by rw [findField, if_pos hroot]; exact hfp) hm htp
    have hdneq : YNode.node dn.kind dn.style dn.value [] = dn := by
      rw [← hempty]
      exact YNode.eta dn
    rw [hdneq, setFieldPairs_found_self keyData root.content dn hfp, YNode.eta root] at h1
    have hdoc : YNode.node doc.kind doc.style doc.value (root :: rest) = doc := by
      rw [← hc]
      exact YNode.eta doc
    rw [hdoc] at h1
    exact h1
  refine ⟨?_, ?_, ?_⟩
  · rw [DecodeSecretData_val_ok doc hval]
    exact hnoop decodeBase64
  · rw [EncodeSecretData_val_ok doc hval]
    exact hnoop encodeBase64
  · rw [docDataPairs_eq doc root rest hc, findField, if_pos hroot, hfp]
    show some (mapPairs dn.content) = some []
    rw [hempty]
    rfl

/-- The flow style bit of a yaml.Node (FlowStyle is 32), carried by an
empty mapping parsed from curly braces. -/
def flowStyle : Nat := 32

/-- The root of the C8 witness: a Secret whose data value is an empty flow
mapping. -/
def c8root : YNode :=
  .node .mapping 0 []
    [scalarNode keyKind, scalarNode valSecret,
     scalarNode keyData, .node .mapping flowStyle [] []]

/-- The C8 witness document. -/
def c8doc : YNode := .node .document 0 [] [c8root]

/-- C8 witness: a concrete document with an empty data mapping is returned
unchanged by both pipelines, with the data key still present and empty. -/
theorem C8_witness :
    validateSecret c8doc = .ok () ∧
    findField c8root keyData = some (.node .mapping flowStyle [] []) ∧
    (DecodeSecretData ⟨true, some c8doc⟩ = .ok c8doc ∧
     EncodeSecretData ⟨true, some c8doc⟩ = .ok c8doc ∧
     docDataPairs c8doc = some []) :=
  ⟨rfl, rfl,
    C8_theorem c8doc c8root (.node .mapping flowStyle [] []) [] rfl rfl rfl rfl rfl⟩

/-! ### Claim C9 -/

/-- C9: the encoder is total — encodeBase64 always returns success — and
decoding an encoder output returns exactly the input bytes; consequently,
for a valid Secret document whose data section holds only scalar plaintext
values, conceal followed by reveal succeeds and restores every data key and
plaintext value exactly. -/
theorem C9_theorem :
    (∀ s : Bytes, encodeBase64 s = .ok (encodeB64 s) ∧
      decodeBase64 (encodeB64 s) = .ok s) ∧
    (∀ (doc root : YNode) (rest : List YNode),
      doc.content = root :: rest → validateSecret doc = .ok () →
      (∀ dn, findField root keyData = some dn → dn.kind = .mapping →
        allScalarPairs dn.content) →
      ∃ d1 d2, EncodeSecretData ⟨true, some doc⟩ = .ok d1 ∧
        DecodeSecretData ⟨true, some d1⟩ = .ok d2 ∧
        docDataPairs d2 = docDataPairs doc) := by
  constructor
  · intro s
    exact ⟨rfl, decodeBase64_encodeB64 s⟩
  · intro doc root rest hc hval hscal
    obtain ⟨hdk, root', rest', hc', hr, kn, hkf, hkv⟩ := (validateSecret_ok_iff doc).mp hval
    rw [hc] at hc'
    injection hc' with hr1 hr2
    subst hr1
    subst hr2
    cases hfd : findField root keyData with
    | none =>
      refine ⟨doc, doc, ?_, ?_, rfl⟩
      · rw [EncodeSecretData_val_ok doc hval]
        exact transformData_absent doc root rest encodeBase64 hc hfd
      · rw [DecodeSecretData_val_ok doc hval]
        exact transformData_absent doc root rest decodeBase64 hc hfd
    | some dn =>
      by_cases hm : dn.kind = .mapping
      · obtain ⟨c1, c2, h1, h2, h3⟩ := concealRevealPairs dn.content (hscal dn hfd hm)
        obtain ⟨d1, d2, ht1, ht2, hdd⟩ := transformData_double doc root dn rest
          encodeBase64 decodeBase64 c1 c2 hc hr hfd hm h1 h2
        refine ⟨d1, d2, ?_, ?_, ?_⟩
        · rw [EncodeSecretData_val_ok doc hval]
          exact ht1
        · rw [DecodeSecretData_val_ok d1
            (validateSecret_transformData doc d1 encodeBase64 hval ht1)]
          exact ht2
        · rw [hdd, docDataPairs_eq doc root rest hc, hfd]
          show some (mapPairs c2) = some (mapPairs dn.content)
          rw [h3]
      · refine ⟨doc, doc, ?_, ?_, rfl⟩
        · rw [EncodeSecretData_val_ok doc hval]
          exact transformData_nonmapping doc root dn rest encodeBase64 hc hfd hm
        · rw [DecodeSecretData_val_ok doc hval]
          exact transformData_nonmapping doc root dn rest decodeBase64 hc hfd hm

/-- The data section of the C9 witness: one plaintext value admin. -/
def c9dataNode : YNode :=
  .node .mapping 0 [] [scalarNode [117], scalarNode [97, 100, 109, 105, 110]]

/-- The root of the C9 witness document. -/
def c9root : YNode :=
  .node .mapping 0 []
    [scalarNode keyKind, scalarNode valSecret, scalarNode keyData, c9dataNode]

/-- The C9 witness document, with plaintext data. -/
def c9doc : YNode := .node .document 0 [] [c9root]

/-- C9 witness: the codec round trip evaluated on the bytes of admin, and
the conceal-then-reveal document round trip evaluated on a concrete
plaintext Secret document. -/
theorem C9_witness :
    (encodeBase64 [97, 100, 109, 105, 110] = .ok (encodeB64 [97, 100, 109, 105, 110]) ∧
     decodeBase64 (encodeB64 [97, 100, 109, 105, 110]) = .ok [97, 100, 109, 105, 110]) ∧
    validateSecret c9doc = .ok () ∧
    (∃ d1 d2, EncodeSecretData ⟨true, some c9doc⟩ = .ok d1 ∧
      DecodeSecretData ⟨true, some d1⟩ = .ok d2 ∧
      docDataPairs d2 = docDataPairs c9doc) :=
  ⟨C9_theorem.1 [97, 100, 109, 105, 110], rfl,
    C9_theorem.2 c9doc c9root [] rfl rfl (fun dn h hm => by
      have h2 : c9dataNode = dn := (Option.some.injEq _ _).mp h
      rw [← h2]
      exact ⟨rfl, trivial⟩)⟩

/-! ### Claim C10 -/

/-- Errors of the empty-input, parse and validation stages of the
pipelines, as opposed to errors of the transform stage. -/
def isFrontErr : TErr → Bool
  | .emptyInput => true
  | .parseError => true
  | .invalidDocument => true
  | .expectedMapping => true
  | .notASecret => true
  | .invalidBase64 => false
  | .transformKey _ _ => false

/-- IsSecret on a parsed document is exactly validation success. -/
theorem IsSecret_iff_validate (doc : YNode) :
    IsSecret ⟨true, some doc⟩ = true ↔ validateSecret doc = .ok () := by
  obtain ⟨dk, ds, dv, dc⟩ := doc
  by_cases hd : dk = YKind.document
  · subst hd
    cases dc with
    | nil =>
      simp [IsSecret, validateSecret, YNode.kind, YNode.content]
    | cons root rest =>
      obtain ⟨rk, rs, rv, rc⟩ := root
      by_cases hr : rk = YKind.mapping
      · subst hr
        cases hf : findField (YNode.node YKind.mapping rs rv rc) keyKind with
        | none =>
          simp [IsSecret, validateSecret, YNode.kind, YNode.content, hf]
        | some kn =>
          by_cases hvv : kn.value = valSecret
          · simp [IsSecret, validateSecret, YNode.kind, YNode.content, hf, hvv]
          · simp [IsSecret, validateSecret, YNode.kind, YNode.content, hf, hvv]
      · simp [IsSecret, validateSecret, YNode.kind, YNode.content, hr]
  · simp [IsSecret, validateSecret, YNode.kind, hd]

/-- Every validation error is a front-stage error. -/
theorem validateSecret_error_front (doc : YNode) (e : TErr)
    (h : validateSecret doc = .error e) : isFrontErr e = true := by
  obtain ⟨dk, ds, dv, dc⟩ := doc
  by_cases hd : dk = YKind.document
  · subst hd
    cases dc with
    | nil =>
      have he : TErr.invalidDocument = e := (Except.error.injEq _ _).mp h
      rw [← he]
      rfl
    | cons root rest =>
      obtain ⟨rk, rs, rv, rc⟩ := root
      by_cases hr : rk = YKind.mapping
      · subst hr
        cases hf : findField (YNode.node YKind.mapping rs rv rc) keyKind with
        | none =>
          simp only [validateSecret, YNode.kind, YNode.content, if_true, hf] at h
          have he : TErr.notASecret = e := (Except.error.injEq _ _).mp h
          rw [← he]
          rfl
        | some kn =>
          by_cases hvv : kn.value = valSecret
          · simp only [validateSecret, YNode.kind, YNode.content, if_true, hf, hvv] at h
            exact Except.noConfusion h
          · simp only [validateSecret, YNode.kind, YNode.content, if_true, hf,
              if_neg hvv] at h
            have he : TErr.notASecret = e := (Except.error.injEq _ _).mp h
            rw [← he]
            rfl
      · simp only [validateSecret, YNode.kind, YNode.content, if_neg hr] at h
        have he : TErr.expectedMapping = e := (Except.error.injEq _ _).mp h
        rw [← he]
        rfl
  · simp only [validateSecret, YNode.kind, if_neg hd] at h
    have he : TErr.invalidDocument = e := (Except.error.injEq _ _).mp h
    rw [← he]
    rfl

/-- Every transform failure is a per-key tagged error. -/
theorem transformData_error_shape (doc : YNode) (f : Bytes → Except TErr Bytes) (e : TErr)
    (h : transformData doc f = .error e) : ∃ k e2, e = .transformKey k e2 := by
  obtain ⟨dk, ds, dv, dc⟩ := doc
  cases dc with
  | nil =>
    exact Except.noConfusion h
  | cons root rest =>
    cases hfd : findField root keyData with
    | none =>
      simp only [transformData, YNode.content, hfd] at h
      exact Except.noConfusion h
    | some dn =>
      obtain ⟨nk, ns, nv, nc⟩ := dn
      by_cases hm : nk = YKind.mapping
      · subst hm
        simp only [transformData, YNode.content, hfd, YNode.kind, if_true] at h
        cases htp : transformPairs f nc with
        | error e2 =>
          simp only [htp] at h
          have he : e2 = e := (Except.error.injEq _ _).mp h
          exact he ▸ transformPairs_error_shape f nc e2 htp
        | ok c2 =>
          simp only [htp] at h
          exact Except.noConfusion h
      · simp only [transformData, YNode.content, hfd, YNode.kind, if_neg hm] at h
        exact Except.noConfusion h

/-- C10: IsSecret accepts an input exactly when it is non-empty, parses to
a document whose root is a mapping, and that root's kind field reads
Secret — equivalently, exactly when neither pipeline fails at its
empty-input, parse, or validation stage (any remaining failure is a
transform-stage error tagged with a key). -/
theorem C10_theorem (inp : Input) :
    IsSecret inp = true ↔
      ((∀ e, DecodeSecretData inp = .error e → isFrontErr e = false) ∧
       (∀ e, EncodeSecretData inp = .error e → isFrontErr e = false)) := by
  obtain ⟨ne, par⟩ := inp
  cases ne with
  | false =>
    constructor
    · intro h
      simp [IsSecret] at h
    · rintro ⟨h1, -⟩
      have h2 := h1 .emptyInput rfl
      exact absurd h2 (by decide)
  | true =>
    cases par with
    | none =>
      constructor
      · intro h
        simp [IsSecret] at h
      · rintro ⟨h1, -⟩
        have h2 := h1 .parseError rfl
        exact absurd h2 (by decide)
    | some doc =>
      rw [IsSecret_iff_validate doc]
      constructor
      · intro hv
        constructor
        · intro e he
          have ht : transformData doc decodeBase64 = .error e := by
            rw [DecodeSecretData_val_ok doc hv] at he
            exact he
          obtain ⟨k, e2, hke⟩ := transformData_error_shape doc decodeBase64 e ht
          rw [hke]
          rfl
        · intro e he
          have ht : transformData doc encodeBase64 = .error e := by
            rw [EncodeSecretData_val_ok doc hv] at he
            exact he
          obtain ⟨k, e2, hke⟩ := transformData_error_shape doc encodeBase64 e ht
          rw [hke]
          rfl
      · rintro ⟨h1, -⟩
        cases hv : validateSecret doc with
        | ok u =>
          cases u
          rfl
        | error e =>
          have hfe := validateSecret_error_front doc e hv
          have hff := h1 e (DecodeSecretData_val_err doc e hv)
          exact Bool.noConfusion (hff ▸ hfe)

end SecretWrapper
